import Mathlib

/-!
# mackerel-plugin-aws-direct-connect: metric fetch, credential choice, graph schema

A shallow embedding of `lib/aws-direct-connect.go`.

Conventions of the embedding

* Go strings are Lean strings.
* `time.Time` is an integer count of nanoseconds; `Before` is `<`.  The timestamps of
  datapoints carry no monotonic reading, so `Before` compares wall clocks.
* `float64` values are only ever copied by the program (never added, compared or
  rounded), so the value type is a parameter `V` with a zero.
* The pointer fields of `types.Datapoint` are `Option`s; dereferencing `nil` is the
  outcome `Run.panic`.
* Everything outside the program (the clock, the monitoring API, the logger, the
  configuration loader) is an environment that transforms an abstract world state.
-/

namespace Mpawsdxcon

/-! ## Data model -/

/-- Instants, in nanoseconds. -/
abbrev Time := Int

/-- The SDK type `types.Statistic` is a string type. -/
abbrev Statistic := String

def StatisticSampleCount : Statistic := "SampleCount"
def StatisticAverage : Statistic := "Average"
def StatisticSum : Statistic := "Sum"
def StatisticMinimum : Statistic := "Minimum"
def StatisticMaximum : Statistic := "Maximum"

/-- The constant `namespace` of the source. -/
def «namespace» : String := "AWS/DX"

/-- The struct `metrics` of the source (its field `Type` is spelled `Type_`). -/
structure metrics where
  Name : String
  Type_ : Statistic
  FullSpecSupport : Bool
deriving DecidableEq, Repr

/-- The fields of `types.Datapoint` that the program reads; each is a pointer. -/
structure Datapoint (V : Type) where
  Timestamp : Option Time
  Average : Option V
  Maximum : Option V
  Minimum : Option V
  Sum : Option V
deriving DecidableEq, Repr

structure Dimension where
  Name : String
  Value : String
deriving DecidableEq, Repr

structure GetMetricStatisticsInput where
  Namespace : String
  Dimensions : List Dimension
  StartTime : Time
  EndTime : Time
  Period : Int
  MetricName : String
  Statistics : List Statistic
deriving DecidableEq, Repr

/-- The struct `AwsDxCon`; `C` is the type of monitoring clients. -/
structure AwsDxCon (C : Type) where
  Prefix : String
  AccessKeyID : String
  SecretKeyID : String
  Region : String
  RoleArn : String
  DxConId : String
  FullSpecSupport : Bool
  CloudWatch : Option C

/-- Outcome of running Go code that may dereference a nil pointer. -/
inductive Run (α : Type) where
  | ret : α → Run α
  | panic : Run α
deriving DecidableEq, Repr

/-- A Go `error` value is its message; `none` is the nil error. -/
abbrev GoError := Option String

/-- The collaborators of the fetch pass, acting on a world state `σ`. -/
structure Env (σ V C : Type) where
  /-- The call `time.Now()`. -/
  now : σ → Time × σ
  /-- The call `client.GetMetricStatistics(ctx, input)`: an error or the datapoints. -/
  getMetricStatistics :
    Option C → GetMetricStatisticsInput → σ → Except String (List (Datapoint V)) × σ
  /-- The call `log.Printf` with the formatted line. -/
  logPrintf : String → σ → σ

/-- A Go `map[string]T`, kept as an association list with distinct keys. -/
abbrev GoMap (T : Type) := List (String × T)

/-- The assignment `m[k] = v`. -/
def GoMap.set {T : Type} : GoMap T → String → T → GoMap T
  | [], k, v => [(k, v)]
  | (k', v') :: rest, k, v =>
    if k' = k then (k, v) :: rest else (k', v') :: GoMap.set rest k v

/-- The lookup `m[k]` with its presence flag. -/
def GoMap.get? {T : Type} : GoMap T → String → Option T
  | [], _ => none
  | (k', v') :: rest, k => if k' = k then some v' else GoMap.get? rest k

/-- The keys of a map. -/
def GoMap.keys {T : Type} (m : GoMap T) : List String := m.map Prod.fst

/-! ## Metric fetcher -/

/-- The list literal that `FetchMetrics` ranges over. -/
def catalog : List metrics :=
  [ { Name := "ConnectionState", Type_ := StatisticMinimum, FullSpecSupport := false },
    { Name := "ConnectionEncryptionState", Type_ := StatisticMinimum, FullSpecSupport := true },
    { Name := "ConnectionBpsEgress", Type_ := StatisticAverage, FullSpecSupport := true },
    { Name := "ConnectionBpsIngress", Type_ := StatisticAverage, FullSpecSupport := true },
    { Name := "ConnectionPpsEgress", Type_ := StatisticAverage, FullSpecSupport := true },
    { Name := "ConnectionPpsIngress", Type_ := StatisticAverage, FullSpecSupport := true },
    { Name := "ConnectionLightLevelTx", Type_ := StatisticAverage, FullSpecSupport := true },
    { Name := "ConnectionLightLevelRx", Type_ := StatisticAverage, FullSpecSupport := true },
    { Name := "ConnectionErrorCount", Type_ := StatisticSum, FullSpecSupport := true } ]

/-- The request that `getLastPoint` builds from the first clock reading. -/
def buildInput {C : Type} (p : AwsDxCon C) (metric : metrics) (now : Time) :
    GetMetricStatisticsInput :=
  { Namespace := «namespace»
    Dimensions := [{ Name := "ConnectionId", Value := p.DxConId }]
    StartTime := now + (180 * 1000000000) * (-1)
    EndTime := now
    Period := 60
    MetricName := metric.Name
    Statistics := [metric.Type_] }

/-- The `switch metric.Type` inside the loop: the new `latestVal`, or a nil dereference. -/
def pickStatistic {V : Type} (metric : metrics) (dp : Datapoint V) (latestVal : V) : Run V :=
  if metric.Type_ = StatisticAverage then
    match dp.Average with
    | some v => Run.ret v
    | none => Run.panic
  else if metric.Type_ = StatisticMaximum then
    match dp.Maximum with
    | some v => Run.ret v
    | none => Run.panic
  else if metric.Type_ = StatisticMinimum then
    match dp.Minimum with
    | some v => Run.ret v
    | none => Run.panic
  else if metric.Type_ = StatisticSum then
    match dp.Sum with
    | some v => Run.ret v
    | none => Run.panic
  else Run.ret latestVal

/-- One iteration of `for _, dp := range datapoints` on the pair `(least, latestVal)`. -/
def leastStep {V : Type} (metric : metrics) (acc : Time × V) (dp : Datapoint V) :
    Run (Time × V) :=
  match dp.Timestamp with
  | none => Run.panic
  | some t =>
    if t < acc.1 then
      match pickStatistic metric dp acc.2 with
      | Run.ret v => Run.ret (t, v)
      | Run.panic => Run.panic
    else Run.ret acc

/-- The whole loop over the datapoints. -/
def leastLoop {V : Type} (metric : metrics) : List (Datapoint V) → Time × V → Run (Time × V)
  | [], acc => Run.ret acc
  | dp :: rest, acc =>
    match leastStep metric acc dp with
    | Run.ret acc' => leastLoop metric rest acc'
    | Run.panic => Run.panic

/-- The message of the error for a required metric without datapoints. -/
def noDatapointsError {C : Type} (p : AwsDxCon C) (metric : metrics) : String :=
  "fetch no datapoints (" ++ metric.Name ++ "): " ++ p.DxConId

/-- The log line for an optional metric without datapoints. -/
def noDatapointsLog {C : Type} (p : AwsDxCon C) (metric : metrics) : String :=
  "fetch no datapoints (" ++ metric.Name ++ " may not be supported metric): " ++ p.DxConId

/-- The call `p.CloudWatch.GetMetricStatistics(ctx, input)` as `getLastPoint` makes it from
the world `w`: the first clock reading goes into the request. -/
def query {σ V C : Type} (env : Env σ V C) (p : AwsDxCon C) (metric : metrics) (w : σ) :
    Except String (List (Datapoint V)) × σ :=
  env.getMetricStatistics p.CloudWatch (buildInput p metric (env.now w).1) (env.now w).2

/-- The method `getLastPoint`: the returned pair `(float64, error)` and the world after. -/
def getLastPoint {σ V C : Type} [Zero V] (env : Env σ V C) (p : AwsDxCon C) (metric : metrics)
    (w : σ) : Run ((V × GoError) × σ) :=
  match query env p metric w with
  | (Except.error err, w2) => Run.ret ((0, some err), w2)
  | (Except.ok datapoints, w2) =>
    if datapoints.length = 0 then
      if metric.FullSpecSupport = true ∧ p.FullSpecSupport = true then
        Run.ret ((0, none), env.logPrintf (noDatapointsLog p metric) w2)
      else
        Run.ret ((0, some (noDatapointsError p metric)), w2)
    else
      match leastLoop metric datapoints ((env.now w2).1, 0) with
      | Run.ret acc => Run.ret ((acc.2, none), (env.now w2).2)
      | Run.panic => Run.panic

/-- The line that `log.Printf("%v : %s", met, err)` writes. -/
def fetchErrorLog (met : metrics) (err : String) : String :=
  "\x7b" ++ met.Name ++ " " ++ met.Type_ ++ " " ++ toString met.FullSpecSupport ++ "\x7d : " ++ err

/-- The condition under which `FetchMetrics` queries a catalog entry. -/
def selected {C : Type} (p : AwsDxCon C) (met : metrics) : Bool :=
  (met.FullSpecSupport == false) || (met.FullSpecSupport == true && p.FullSpecSupport == true)

/-- The statement `if err != nil { log.Printf("%v : %s", met, err) }`. -/
def logFetchError {σ V C : Type} (env : Env σ V C) (met : metrics) : GoError → σ → σ
  | some e, w => env.logPrintf (fetchErrorLog met e) w
  | none, w => w

/-- The loop of `FetchMetrics` over a list of entries. -/
def fetchLoop {σ V C : Type} [Zero V] (env : Env σ V C) (p : AwsDxCon C) :
    List metrics → GoMap V → σ → Run (GoMap V × σ)
  | [], stat, w => Run.ret (stat, w)
  | met :: rest, stat, w =>
    if selected p met = true then
      match getLastPoint env p met w with
      | Run.panic => Run.panic
      | Run.ret ((v, err), w1) =>
        fetchLoop env p rest (stat.set met.Name v) (logFetchError env met err w1)
    else fetchLoop env p rest stat w

/-- The method `FetchMetrics`: the returned pair `(map, error)` and the world after. -/
def FetchMetrics {σ V C : Type} [Zero V] (env : Env σ V C) (p : AwsDxCon C) (w : σ) :
    Run ((GoMap V × GoError) × σ) :=
  match fetchLoop env p catalog [] w with
  | Run.ret (stat, w1) => Run.ret ((stat, none), w1)
  | Run.panic => Run.panic

/-! ## Credential resolver -/

/-- The credential providers that `prepare` constructs; `S` is the type of STS clients. -/
inductive CredentialsProvider (S : Type) where
  /-- The value `stscreds.NewAssumeRoleProvider(client, roleArn)`. -/
  | assumeRole (client : S) (roleArn : String)
  /-- The value `credentials.NewStaticCredentialsProvider(key, secret, session)`. -/
  | static (key secret session : String)
deriving DecidableEq, Repr

/-- The functional options that `prepare` hands to `config.LoadDefaultConfig`. -/
inductive LoadOption (S : Type) where
  | WithCredentialsProvider (v : CredentialsProvider S)
  | WithRegion (v : String)
deriving DecidableEq, Repr

/-- The SDK calls of `prepare`, acting on a world state `σ`; `Cfg` is `aws.Config`. -/
structure ConfigEnv (σ Cfg S C : Type) where
  /-- The call `config.LoadDefaultConfig(ctx, opts...)`. -/
  loadDefaultConfig : List (LoadOption S) → σ → Except String Cfg × σ
  /-- The call `sts.NewFromConfig(cfg)`. -/
  stsNewFromConfig : Cfg → S
  /-- The call `cloudwatch.NewFromConfig(cfg)`. -/
  cloudwatchNewFromConfig : Cfg → C

/-- The statement `if p.Region != "" { opts = append(opts, config.WithRegion(p.Region)) }`. -/
def withRegion {S C : Type} (p : AwsDxCon C) (opts : List (LoadOption S)) :
    List (LoadOption S) :=
  if p.Region ≠ "" then opts ++ [LoadOption.WithRegion p.Region] else opts

/-- The tail of `prepare`, from `if p.Region != ""` to the end. -/
def prepareFinish {σ Cfg S C : Type} (env : ConfigEnv σ Cfg S C) (p : AwsDxCon C)
    (opts : List (LoadOption S)) (w : σ) : (GoError × AwsDxCon C) × σ :=
  match env.loadDefaultConfig (withRegion p opts) w with
  | (Except.error err, w1) => ((some err, p), w1)
  | (Except.ok cfg, w1) =>
    ((none, { p with CloudWatch := some (env.cloudwatchNewFromConfig cfg) }), w1)

/-- The method `prepare`: the returned error, the receiver after the call, the world. -/
def prepare {σ Cfg S C : Type} (env : ConfigEnv σ Cfg S C) (p : AwsDxCon C) (w : σ) :
    (GoError × AwsDxCon C) × σ :=
  let opts : List (LoadOption S) := []
  if p.RoleArn ≠ "" then
    match env.loadDefaultConfig opts w with
    | (Except.error err, w1) => ((some err, p), w1)
    | (Except.ok cfg, w1) =>
      let stsclient := env.stsNewFromConfig cfg
      let appCreds := CredentialsProvider.assumeRole stsclient p.RoleArn
      prepareFinish env p (opts ++ [LoadOption.WithCredentialsProvider appCreds]) w1
  else if p.AccessKeyID ≠ "" ∧ p.SecretKeyID ≠ "" then
    prepareFinish env p
      (opts ++ [LoadOption.WithCredentialsProvider
        (CredentialsProvider.static p.AccessKeyID p.SecretKeyID "")]) w
  else prepareFinish env p opts w

/-- An environment that also writes down the option list of every configuration load,
in call order, next to the world state of the environment it wraps. -/
def recordLoads {σ Cfg S C : Type} (env : ConfigEnv σ Cfg S C) :
    ConfigEnv (σ × List (List (LoadOption S))) Cfg S C :=
  { loadDefaultConfig := fun opts w =>
      ((env.loadDefaultConfig opts w.1).1, ((env.loadDefaultConfig opts w.1).2, w.2 ++ [opts]))
    stsNewFromConfig := env.stsNewFromConfig
    cloudwatchNewFromConfig := env.cloudwatchNewFromConfig }

/-- The credentials providers among a list of load options, in order. -/
def credentialsProviders {S : Type} : List (LoadOption S) → List (CredentialsProvider S)
  | [] => []
  | LoadOption.WithCredentialsProvider v :: rest => v :: credentialsProviders rest
  | LoadOption.WithRegion _ :: rest => credentialsProviders rest

/-! ## Graph schema builder -/

/-- The parts of Go's Unicode tables that `strings.Title` consults beyond ASCII. -/
structure UnicodeTables where
  /-- The function `unicode.To(unicode.TitleCase, r)`. -/
  toTitle : Char → Char
  isLetter : Char → Bool
  isDigit : Char → Bool
  isSpace : Char → Bool

/-- Tables that treat every character beyond ASCII as a caseless non-letter. -/
def asciiOnly : UnicodeTables :=
  { toTitle := fun r => r, isLetter := fun _ => false, isDigit := fun _ => false,
    isSpace := fun _ => false }

/-- Go's `strings.isSeparator`. -/
def isSeparator (U : UnicodeTables) (r : Char) : Bool :=
  if r.toNat ≤ 0x7F then
    if '0'.toNat ≤ r.toNat ∧ r.toNat ≤ '9'.toNat then false
    else if 'a'.toNat ≤ r.toNat ∧ r.toNat ≤ 'z'.toNat then false
    else if 'A'.toNat ≤ r.toNat ∧ r.toNat ≤ 'Z'.toNat then false
    else if r = '_' then false
    else true
  else if U.isLetter r || U.isDigit r then false
  else U.isSpace r

/-- Go's `unicode.ToTitle`. -/
def ToTitle (U : UnicodeTables) (r : Char) : Char :=
  if r.toNat ≤ 0x7F then
    if 'a'.toNat ≤ r.toNat ∧ r.toNat ≤ 'z'.toNat then Char.ofNat (r.toNat - ('a'.toNat - 'A'.toNat))
    else r
  else U.toTitle r

/-- The closure that `strings.Title` maps over the runes, with its remembered `prev`. -/
def titleRunes (U : UnicodeTables) : Char → List Char → List Char
  | _, [] => []
  | prev, r :: rest =>
    (if isSeparator U prev then ToTitle U r else r) :: titleRunes U r rest

/-- Go's `strings.Title`. -/
def Title (U : UnicodeTables) (s : String) : String :=
  String.mk (titleRunes U ' ' s.data)

/-- Go's `strings.Replace(s, old, new, -1)` for one-character `old` and `new`. -/
def ReplaceAll (s : String) (old new : Char) : String :=
  String.mk (s.data.map fun c => if c = old then new else c)

/-- The constant `mp.UnitInteger` of go-mackerel-plugin. -/
def UnitInteger : String := "integer"

/-- The constant `mp.UnitBitsPerSecond` of go-mackerel-plugin. -/
def UnitBitsPerSecond : String := "bits/sec"

/-- The fields of `mp.Metrics` that the program sets. -/
structure Metrics where
  Name : String
  Label : String
deriving DecidableEq, Repr

/-- The struct `mp.Graphs`. -/
structure Graphs where
  Label : String
  Unit : String
  Metrics : List Metrics
deriving DecidableEq, Repr

/-- The local `labelPrefix` of `GraphDefinition`. -/
def labelPrefix {C : Type} (U : UnicodeTables) (p : AwsDxCon C) : String :=
  ReplaceAll (Title U p.Prefix) '-' ' '

/-- The method `GraphDefinition`. -/
def GraphDefinition {C : Type} (U : UnicodeTables) (p : AwsDxCon C) : GoMap Graphs :=
  let labelPrefix := labelPrefix U p
  if p.FullSpecSupport then
    [ ("State",
        { Label := labelPrefix ++ " connection status"
          Unit := UnitInteger
          Metrics := [ { Name := "ConnectionState", Label := "ConnectionState" },
                       { Name := "ConnectionEncryptionState",
                         Label := "ConnectionEncryptionState" } ] }),
      ("Bps",
        { Label := labelPrefix ++ " bps"
          Unit := UnitBitsPerSecond
          Metrics := [ { Name := "ConnectionBpsEgress", Label := "bps out" },
                       { Name := "ConnectionBpsIngress", Label := "bps in" } ] }),
      ("Pps",
        { Label := labelPrefix ++ " pps"
          Unit := UnitInteger
          Metrics := [ { Name := "ConnectionPpsEgress", Label := "pps out" },
                       { Name := "ConnectionPpsIngress", Label := "pps in" } ] }),
      ("LightLevel",
        { Label := labelPrefix ++ " Light level"
          Unit := UnitInteger
          Metrics := [ { Name := "ConnectionLightLevelTx", Label := "egress dBm" },
                       { Name := "ConnectionLightLevelRx", Label := "ingress dBm" } ] }),
      ("Error",
        { Label := labelPrefix ++ " Error"
          Unit := UnitInteger
          Metrics := [ { Name := "ConnectionErrorCount", Label := "CRC Errors" } ] }) ]
  else
    [ ("State",
        { Label := labelPrefix ++ " connection status"
          Unit := UnitInteger
          Metrics := [ { Name := "ConnectionState", Label := "ConnectionState" } ] }) ]

/-- The method `MetricKeyPrefix`. -/
def MetricKeyPrefix {C : Type} (p : AwsDxCon C) : String :=
  let p := if p.Prefix = "" then { p with Prefix := "Dx" } else p
  p.Prefix

/-- Every metric name that a graph schema refers to. -/
def graphMetricNames (g : GoMap Graphs) : List String :=
  g.flatMap fun kv => kv.2.Metrics.map fun m => m.Name

/-! ## Test doubles -/

/-- An integer-valued datapoint with every statistic set to the same value. -/
def point (t v : Int) : Datapoint Int :=
  { Timestamp := some t, Average := some v, Maximum := some v, Minimum := some v, Sum := some v }

/-- A clock that reads `clock n` at the `n`-th call and an API that answers from a table of
datapoints per metric name; the world state is the number of clock readings so far. -/
def scriptedEnv (clock : Nat → Time)
    (answer : String → Except String (List (Datapoint Int))) : Env Nat Int Unit :=
  { now := fun n => (clock n, n + 1)
    getMetricStatistics := fun _ input n => (answer input.MetricName, n)
    logPrintf := fun _ n => n }

/-- A configuration loader that accepts every option list. -/
def acceptingLoader : ConfigEnv Unit (List (LoadOption Unit)) Unit Unit :=
  { loadDefaultConfig := fun opts w => (Except.ok opts, w)
    stsNewFromConfig := fun _ => ()
    cloudwatchNewFromConfig := fun _ => () }

/-- An API double: the connection state query fails, every other query answers one
datapoint; every clock reading is 1000. -/
def flakyEnv : Env Nat Int Unit :=
  scriptedEnv (fun _ => 1000) fun name =>
    if name = "ConnectionState" then Except.error "timeout" else Except.ok [point 940 5]

/-- An API double: the response of the worked example, datapoints at `T-60`, `T-120` and `T`
with values 5, 3 and 9, for `T = 1000`; every clock reading is 1000. -/
def exampleEnv : Env Nat Int Unit :=
  scriptedEnv (fun _ => 1000) fun _ => Except.ok [point 940 5, point 880 3, point 1000 9]

/-- An API double whose single datapoint lies after both clock readings. -/
def aheadEnv : Env Nat Int Unit :=
  scriptedEnv (fun _ => 100) fun _ => Except.ok [point 200 5]

/-- An API double whose wall clock steps back between the two readings of one call: the
first reading is 1000, every later one 900; the single datapoint lies at 940. -/
def stepBackEnv : Env Nat Int Unit :=
  scriptedEnv (fun n => if n = 0 then 1000 else 900) fun _ => Except.ok [point 940 5]

/-- The catalog entry of the encryption state. -/
def connectionEncryptionState : metrics :=
  { Name := "ConnectionEncryptionState", Type_ := StatisticMinimum, FullSpecSupport := true }

/-- An API double with one answer of each kind: the connection state query fails, the
encryption state has no datapoints, the outbound bitrate gets the response of the worked
example, every other query gets one datapoint of value 7; every clock reading is 1000. -/
def mixedEnv : Env Nat Int Unit :=
  scriptedEnv (fun _ => 1000) fun name =>
    if name = "ConnectionState" then Except.error "timeout"
    else if name = "ConnectionEncryptionState" then Except.ok []
    else if name = "ConnectionBpsEgress" then
      Except.ok [point 940 5, point 880 3, point 1000 9]
    else Except.ok [point 940 7]

/-- An API double without datapoints. -/
def silentEnv : Env Nat Int Unit :=
  scriptedEnv (fun _ => 1000) fun _ => Except.ok []

/-- The catalog entry of the outbound bitrate. -/
def bpsEgress : metrics :=
  { Name := "ConnectionBpsEgress", Type_ := StatisticAverage, FullSpecSupport := true }

/-- The catalog entry of the connection state. -/
def connectionState : metrics :=
  { Name := "ConnectionState", Type_ := StatisticMinimum, FullSpecSupport := false }

/-- An API double whose least timestamp occurs twice, with values 3 and then 7. -/
def tieEnv : Env Nat Int Unit :=
  scriptedEnv (fun _ => 1000) fun _ =>
    Except.ok [point 940 5, point 880 3, point 880 7, point 1000 9]

/-- A plugin value with the given flag, prefix and connection id, and nothing else set. -/
def plugin (full : Bool) (pfx id : String) : AwsDxCon Unit :=
  { Prefix := pfx, AccessKeyID := "", SecretKeyID := "", Region := "", RoleArn := "",
    DxConId := id, FullSpecSupport := full, CloudWatch := some () }

/-! ## Vocabulary of the statements -/

/-- The four statistics that the `switch` of `getLastPoint` knows. -/
def knownStatistics : List Statistic :=
  [StatisticAverage, StatisticMaximum, StatisticMinimum, StatisticSum]

/-- The value that a datapoint holds for a statistic, when the field is set. -/
def requestedValue {V : Type} (s : Statistic) (dp : Datapoint V) : Option V :=
  if s = StatisticAverage then dp.Average
  else if s = StatisticMaximum then dp.Maximum
  else if s = StatisticMinimum then dp.Minimum
  else if s = StatisticSum then dp.Sum
  else none

/-- A datapoint as the monitoring API documents it for a request of statistic `s`: the
timestamp is set, and so is the field of `s` when `s` is one of the four known ones. -/
def Datapoint.populated {V : Type} (s : Statistic) (dp : Datapoint V) : Prop :=
  dp.Timestamp.isSome = true ∧ (s ∈ knownStatistics → (requestedValue s dp).isSome = true)

instance {V : Type} (s : Statistic) (dp : Datapoint V) : Decidable (dp.populated s) := by
  unfold Datapoint.populated
  infer_instance

/-- Every datapoint that the API ever answers is populated for the requested statistics. -/
def answersPopulated {σ V C : Type} (env : Env σ V C) : Prop :=
  ∀ (c : Option C) (input : GetMetricStatisticsInput) (w : σ) (dps : List (Datapoint V)),
    (env.getMetricStatistics c input w).1 = Except.ok dps →
      ∀ dp ∈ dps, ∀ s ∈ input.Statistics, dp.populated s

/-- The query of `metric` from the world `w` fails: an error, or no datapoints. -/
def queryFails {σ V C : Type} (env : Env σ V C) (p : AwsDxCon C) (metric : metrics) (w : σ) :
    Prop :=
  (∃ err, (query env p metric w).1 = Except.error err) ∨ (query env p metric w).1 = Except.ok []

/-- The text `part` occurs inside the text `whole`. -/
def occursIn (part whole : String) : Prop :=
  ∃ before after : String, whole = before ++ part ++ after

/-- The value `v` is the one that the first datapoint, in list order, with the least
timestamp of `dps` holds for the statistic `s`. -/
def firstMinimumValue {V : Type} (s : Statistic) (dps : List (Datapoint V)) (v : V) : Prop :=
  ∃ (pre : List (Datapoint V)) (d : Datapoint V) (post : List (Datapoint V)) (t : Time),
    dps = pre ++ d :: post ∧ d.Timestamp = some t ∧ requestedValue s d = some v ∧
    (∀ x ∈ pre, ∀ tx, x.Timestamp = some tx → t < tx) ∧
    (∀ x ∈ post, ∀ tx, x.Timestamp = some tx → t ≤ tx)

/-- The reading "`getLastPoint` returns the value of the earliest datapoint": the call
returns, without error, the requested statistic of a datapoint of the response whose
timestamp no other timestamp of the response precedes. -/
def returnsEarliest {σ V C : Type} [Zero V] (env : Env σ V C) (p : AwsDxCon C)
    (metric : metrics) (w : σ) (dps : List (Datapoint V)) : Prop :=
  ∃ d ∈ dps, ∃ (t : Time) (v : V) (w' : σ),
    d.Timestamp = some t ∧
    (∀ x ∈ dps, ∀ tx, x.Timestamp = some tx → t ≤ tx) ∧
    requestedValue metric.Type_ d = some v ∧
    getLastPoint env p metric w = Run.ret ((v, none), w')

/-- The keys after inserting the given names one by one. -/
def addKeys (ks : List String) (names : List String) : List String :=
  names.foldl (fun acc n => if n ∈ acc then acc else acc ++ [n]) ks

/-- The option lists of the configuration loads that a run of `prepare` makes, in call
order, read off the recording environment. -/
def loadCalls {σ Cfg S C : Type} (env : ConfigEnv σ Cfg S C) (p : AwsDxCon C) (w : σ) :
    List (List (LoadOption S)) :=
  (prepare (recordLoads env) p (w, [])).2.2

/-- The nine names of the catalog, in its order. -/
def catalogNames : List String := catalog.map fun met => met.Name

/-! ## Lemmas on the datapoint loop -/

theorem pickStatistic_of_requested {V : Type} (metric : metrics) (dp : Datapoint V) (lv v : V)
    (hs : metric.Type_ ∈ knownStatistics) (hv : requestedValue metric.Type_ dp = some v) :
    pickStatistic metric dp lv = Run.ret v := by
  unfold requestedValue at hv
  unfold pickStatistic
  simp only [knownStatistics, List.mem_cons, List.mem_singleton, List.not_mem_nil, or_false] at hs
  by_cases h1 : metric.Type_ = StatisticAverage
  · simp only [h1, if_true] at hv ⊢
    rw [hv]
  · by_cases h2 : metric.Type_ = StatisticMaximum
    · simp only [h1, h2, if_true, if_false] at hv ⊢
      simp [StatisticAverage, StatisticMaximum] at hv ⊢
      rw [hv]
    · by_cases h3 : metric.Type_ = StatisticMinimum
      · simp only [h1, h2, h3, if_true, if_false] at hv ⊢
        simp [StatisticAverage, StatisticMaximum, StatisticMinimum] at hv ⊢
        rw [hv]
      · by_cases h4 : metric.Type_ = StatisticSum
        · simp only [h1, h2, h3, h4, if_true, if_false] at hv ⊢
          simp [StatisticAverage, StatisticMaximum, StatisticMinimum, StatisticSum] at hv ⊢
          rw [hv]
        · simp [h1, h2, h3, h4] at hs

theorem pickStatistic_of_unknown {V : Type} (metric : metrics) (dp : Datapoint V) (lv : V)
    (hs : metric.Type_ ∉ knownStatistics) : pickStatistic metric dp lv = Run.ret lv := by
  simp only [knownStatistics, List.mem_cons, List.mem_singleton, List.not_mem_nil, or_false,
    not_or] at hs
  obtain ⟨h1, h2, h3, h4⟩ := hs
  simp [pickStatistic, h1, h2, h3, h4]

theorem pickStatistic_returns {V : Type} (metric : metrics) (dp : Datapoint V) (lv : V)
    (hp : dp.populated metric.Type_) : ∃ v, pickStatistic metric dp lv = Run.ret v := by
  by_cases hs : metric.Type_ ∈ knownStatistics
  · have h := hp.2 hs
    obtain ⟨v, hv⟩ := Option.isSome_iff_exists.mp h
    exact ⟨v, pickStatistic_of_requested metric dp lv v hs hv⟩
  · exact ⟨lv, pickStatistic_of_unknown metric dp lv hs⟩

theorem leastStep_keeps {V : Type} (metric : metrics) (acc : Time × V) (dp : Datapoint V)
    (t : Time) (ht : dp.Timestamp = some t) (hnot : ¬ t < acc.1) :
    leastStep metric acc dp = Run.ret acc := by
  simp [leastStep, ht, hnot]

theorem leastStep_takes {V : Type} (metric : metrics) (acc : Time × V) (dp : Datapoint V)
    (t : Time) (v : V) (ht : dp.Timestamp = some t) (hlt : t < acc.1)
    (hs : metric.Type_ ∈ knownStatistics) (hv : requestedValue metric.Type_ dp = some v) :
    leastStep metric acc dp = Run.ret (t, v) := by
  simp [leastStep, ht, hlt, pickStatistic_of_requested metric dp acc.2 v hs hv]

theorem leastStep_returns {V : Type} (metric : metrics) (acc : Time × V) (dp : Datapoint V)
    (hp : dp.populated metric.Type_) : ∃ acc', leastStep metric acc dp = Run.ret acc' := by
  obtain ⟨t, ht⟩ := Option.isSome_iff_exists.mp hp.1
  by_cases hlt : t < acc.1
  · obtain ⟨v, hv⟩ := pickStatistic_returns metric dp acc.2 hp
    exact ⟨(t, v), by simp [leastStep, ht, hlt, hv]⟩
  · exact ⟨acc, leastStep_keeps metric acc dp t ht hlt⟩

theorem leastLoop_returns {V : Type} (metric : metrics) (dps : List (Datapoint V))
    (hp : ∀ dp ∈ dps, dp.populated metric.Type_) (acc : Time × V) :
    ∃ acc', leastLoop metric dps acc = Run.ret acc' := by
  induction dps generalizing acc with
  | nil => exact ⟨acc, rfl⟩
  | cons dp rest ih =>
    obtain ⟨acc1, h1⟩ := leastStep_returns metric acc dp (hp dp (List.mem_cons_self _ _))
    obtain ⟨acc2, h2⟩ := ih (fun x hx => hp x (List.mem_cons_of_mem _ hx)) acc1
    exact ⟨acc2, by simp [leastLoop, h1, h2]⟩

/-- The loop computes a running minimum: either no timestamp is before the start value and
the pair is unchanged, or the pair is the timestamp and value of the first datapoint, in
list order, whose timestamp is the least of the list. -/
theorem leastLoop_spec {V : Type} (metric : metrics) (hs : metric.Type_ ∈ knownStatistics)
    (dps : List (Datapoint V)) (hp : ∀ dp ∈ dps, dp.populated metric.Type_)
    (l0 : Time) (v0 : V) :
    ((∀ dp ∈ dps, ∀ t, dp.Timestamp = some t → ¬ t < l0) ∧
        leastLoop metric dps (l0, v0) = Run.ret (l0, v0)) ∨
    (∃ (pre : List (Datapoint V)) (d : Datapoint V) (post : List (Datapoint V))
        (t : Time) (v : V),
        dps = pre ++ d :: post ∧ d.Timestamp = some t ∧
        requestedValue metric.Type_ d = some v ∧ t < l0 ∧
        (∀ x ∈ pre, ∀ tx, x.Timestamp = some tx → t < tx) ∧
        (∀ x ∈ post, ∀ tx, x.Timestamp = some tx → t ≤ tx) ∧
        leastLoop metric dps (l0, v0) = Run.ret (t, v)) := by
  induction dps generalizing l0 v0 with
  | nil => exact Or.inl ⟨fun _ h => absurd h (List.not_mem_nil _), rfl⟩
  | cons dp rest ih =>
    have hpd := hp dp (List.mem_cons_self _ _)
    have hpr : ∀ x ∈ rest, x.populated metric.Type_ :=
      fun x hx => hp x (List.mem_cons_of_mem _ hx)
    obtain ⟨t0, ht0⟩ := Option.isSome_iff_exists.mp hpd.1
    obtain ⟨u0, hu0⟩ := Option.isSome_iff_exists.mp (hpd.2 hs)
    by_cases hlt : t0 < l0
    · have hstep := leastStep_takes metric (l0, v0) dp t0 u0 ht0 hlt hs hu0
      rcases ih hpr t0 u0 with ⟨hall, hres⟩ | ⟨pre, d, post, t, v, hsplit, htd, hvd, htlt, hpre, hpost, hres⟩
      · refine Or.inr ⟨[], dp, rest, t0, u0, rfl, ht0, hu0, hlt, ?_, ?_, ?_⟩
        · intro x hx; exact absurd hx (List.not_mem_nil _)
        · intro x hx tx htx; exact not_lt.mp (hall x hx tx htx)
        · simp [leastLoop, hstep, hres]
      · refine Or.inr ⟨dp :: pre, d, post, t, v, by simp [hsplit], htd, hvd,
          lt_trans htlt hlt, ?_, hpost, ?_⟩
        · intro x hx tx htx
          rcases List.mem_cons.mp hx with rfl | hx
          · rw [ht0] at htx; cases htx; exact htlt
          · exact hpre x hx tx htx
        · simp [leastLoop, hstep, hres]
    · have hstep := leastStep_keeps metric (l0, v0) dp t0 ht0 hlt
      rcases ih hpr l0 v0 with ⟨hall, hres⟩ | ⟨pre, d, post, t, v, hsplit, htd, hvd, htlt, hpre, hpost, hres⟩
      · refine Or.inl ⟨?_, ?_⟩
        · intro x hx tx htx
          rcases List.mem_cons.mp hx with rfl | hx
          · rw [ht0] at htx; cases htx; exact hlt
          · exact hall x hx tx htx
        · simp [leastLoop, hstep, hres]
      · refine Or.inr ⟨dp :: pre, d, post, t, v, by simp [hsplit], htd, hvd, htlt, ?_, hpost, ?_⟩
        · intro x hx tx htx
          rcases List.mem_cons.mp hx with rfl | hx
          · rw [ht0] at htx; cases htx
            exact lt_of_lt_of_le htlt (not_lt.mp hlt)
          · exact hpre x hx tx htx
        · simp [leastLoop, hstep, hres]

theorem pickStatistic_of_missing {V : Type} (metric : metrics) (dp : Datapoint V) (lv : V)
    (hs : metric.Type_ ∈ knownStatistics) (hv : requestedValue metric.Type_ dp = none) :
    pickStatistic metric dp lv = Run.panic := by
  unfold requestedValue at hv
  unfold pickStatistic
  simp only [knownStatistics, List.mem_cons, List.mem_singleton, List.not_mem_nil, or_false] at hs
  by_cases h1 : metric.Type_ = StatisticAverage
  · simp only [h1, if_true] at hv ⊢
    rw [hv]
  · by_cases h2 : metric.Type_ = StatisticMaximum
    · simp only [h1, h2, if_true, if_false] at hv ⊢
      simp [StatisticAverage, StatisticMaximum] at hv ⊢
      rw [hv]
    · by_cases h3 : metric.Type_ = StatisticMinimum
      · simp only [h1, h2, h3, if_true, if_false] at hv ⊢
        simp [StatisticAverage, StatisticMaximum, StatisticMinimum] at hv ⊢
        rw [hv]
      · by_cases h4 : metric.Type_ = StatisticSum
        · simp only [h1, h2, h3, h4, if_true, if_false] at hv ⊢
          simp [StatisticAverage, StatisticMaximum, StatisticMinimum, StatisticSum] at hv ⊢
          rw [hv]
        · simp [h1, h2, h3, h4] at hs

/-- A `switch` that returns, for a known statistic, returns the field of that statistic. -/
theorem requested_of_pickStatistic {V : Type} (metric : metrics) (dp : Datapoint V) (lv u : V)
    (hs : metric.Type_ ∈ knownStatistics) (h : pickStatistic metric dp lv = Run.ret u) :
    requestedValue metric.Type_ dp = some u := by
  cases hv : requestedValue metric.Type_ dp with
  | none =>
    rw [pickStatistic_of_missing metric dp lv hs hv] at h
    cases h
  | some v =>
    rw [pickStatistic_of_requested metric dp lv v hs hv] at h
    cases h
    rfl

/-- What a loop step that returns has done. -/
theorem leastStep_ret {V : Type} (metric : metrics) (acc acc1 : Time × V) (dp : Datapoint V)
    (hs : metric.Type_ ∈ knownStatistics) (h : leastStep metric acc dp = Run.ret acc1) :
    ∃ t, dp.Timestamp = some t ∧
      ((t < acc.1 ∧ ∃ u, requestedValue metric.Type_ dp = some u ∧ acc1 = (t, u)) ∨
        (¬ t < acc.1 ∧ acc1 = acc)) := by
  unfold leastStep at h
  cases ht : dp.Timestamp with
  | none => rw [ht] at h; cases h
  | some t =>
    rw [ht] at h
    refine ⟨t, rfl, ?_⟩
    by_cases hlt : t < acc.1
    · simp only [hlt, if_true] at h
      cases hp : pickStatistic metric dp acc.2 with
      | panic => rw [hp] at h; cases h
      | ret u =>
        rw [hp] at h
        simp only [Run.ret.injEq] at h
        exact Or.inl ⟨hlt, u, requested_of_pickStatistic metric dp acc.2 u hs hp, h.symm⟩
    · simp only [hlt, if_false, Run.ret.injEq] at h
      exact Or.inr ⟨hlt, h.symm⟩

/-- Whenever the loop returns, for a known statistic: every datapoint has its timestamp,
and the pair is either the start pair, no timestamp being before the start value, or the
timestamp and value of the first datapoint with the least timestamp. -/
theorem leastLoop_ret_spec {V : Type} (metric : metrics) (hs : metric.Type_ ∈ knownStatistics)
    (dps : List (Datapoint V)) (l0 : Time) (v0 : V) (acc : Time × V)
    (h : leastLoop metric dps (l0, v0) = Run.ret acc) :
    (∀ dp ∈ dps, ∃ t, dp.Timestamp = some t) ∧
    (((∀ dp ∈ dps, ∀ t, dp.Timestamp = some t → ¬ t < l0) ∧ acc = (l0, v0)) ∨
      (∃ (pre : List (Datapoint V)) (d : Datapoint V) (post : List (Datapoint V)),
        dps = pre ++ d :: post ∧ d.Timestamp = some acc.1 ∧
        requestedValue metric.Type_ d = some acc.2 ∧ acc.1 < l0 ∧
        (∀ x ∈ pre, ∀ tx, x.Timestamp = some tx → acc.1 < tx) ∧
        (∀ x ∈ post, ∀ tx, x.Timestamp = some tx → acc.1 ≤ tx))) := by
  induction dps generalizing l0 v0 with
  | nil =>
    simp only [leastLoop, Run.ret.injEq] at h
    exact ⟨fun _ hx => absurd hx (List.not_mem_nil _),
      Or.inl ⟨fun _ hx => absurd hx (List.not_mem_nil _), h.symm⟩⟩
  | cons dp rest ih =>
    unfold leastLoop at h
    cases hstep : leastStep metric (l0, v0) dp with
    | panic => rw [hstep] at h; cases h
    | ret acc1 =>
      rw [hstep] at h
      simp only at h
      obtain ⟨t0, ht0, hcase⟩ := leastStep_ret metric (l0, v0) acc1 dp hs hstep
      have hts : ∀ hrest : (∀ x ∈ rest, ∃ t, x.Timestamp = some t),
          ∀ x ∈ dp :: rest, ∃ t, x.Timestamp = some t := by
        intro hrest x hx
        rcases List.mem_cons.mp hx with rfl | hx
        · exact ⟨t0, ht0⟩
        · exact hrest x hx
      rcases hcase with ⟨hlt, u, hu, rfl⟩ | ⟨hnlt, rfl⟩
      · obtain ⟨hall0, hrest⟩ := ih t0 u h
        refine ⟨hts hall0, Or.inr ?_⟩
        rcases hrest with ⟨hall, rfl⟩ | ⟨pre, d, post, hsplit, htd, hvd, hacc, hpre, hpost⟩
        · refine ⟨[], dp, rest, rfl, ht0, hu, hlt, ?_, ?_⟩
          · intro x hx; exact absurd hx (List.not_mem_nil _)
          · intro x hx tx htx; exact not_lt.mp (hall x hx tx htx)
        · refine ⟨dp :: pre, d, post, by simp [hsplit], htd, hvd, lt_trans hacc hlt, ?_, hpost⟩
          intro x hx tx htx
          rcases List.mem_cons.mp hx with rfl | hx
          · rw [ht0] at htx; cases htx; exact hacc
          · exact hpre x hx tx htx
      · obtain ⟨hall0, hrest⟩ := ih l0 v0 h
        refine ⟨hts hall0, ?_⟩
        rcases hrest with ⟨hall, rfl⟩ | ⟨pre, d, post, hsplit, htd, hvd, hacc, hpre, hpost⟩
        · refine Or.inl ⟨?_, rfl⟩
          intro x hx tx htx
          rcases List.mem_cons.mp hx with rfl | hx
          · rw [ht0] at htx; cases htx; exact hnlt
          · exact hall x hx tx htx
        · refine Or.inr ⟨dp :: pre, d, post, by simp [hsplit], htd, hvd, hacc, ?_, hpost⟩
          intro x hx tx htx
          rcases List.mem_cons.mp hx with rfl | hx
          · rw [ht0] at htx; cases htx
            exact lt_of_lt_of_le hacc (not_lt.mp hnlt)
          · exact hpre x hx tx htx

/-! ## Lemmas on `getLastPoint` -/

theorem getLastPoint_of_error {σ V C : Type} [Zero V] (env : Env σ V C) (p : AwsDxCon C)
    (metric : metrics) (w : σ) (err : String)
    (hq : (query env p metric w).1 = Except.error err) :
    getLastPoint env p metric w = Run.ret ((0, some err), (query env p metric w).2) := by
  unfold getLastPoint
  generalize query env p metric w = q at hq
  obtain ⟨r, w2⟩ := q
  simp only at hq
  subst hq
  rfl

theorem getLastPoint_of_empty {σ V C : Type} [Zero V] (env : Env σ V C) (p : AwsDxCon C)
    (metric : metrics) (w : σ) (hq : (query env p metric w).1 = Except.ok []) :
    getLastPoint env p metric w =
      if metric.FullSpecSupport = true ∧ p.FullSpecSupport = true then
        Run.ret ((0, none), env.logPrintf (noDatapointsLog p metric) (query env p metric w).2)
      else Run.ret ((0, some (noDatapointsError p metric)), (query env p metric w).2) := by
  unfold getLastPoint
  generalize query env p metric w = q at hq
  obtain ⟨r, w2⟩ := q
  simp only at hq
  subst hq
  simp

theorem getLastPoint_of_loop {σ V C : Type} [Zero V] (env : Env σ V C) (p : AwsDxCon C)
    (metric : metrics) (w : σ) (dps : List (Datapoint V)) (acc : Time × V)
    (hq : (query env p metric w).1 = Except.ok dps) (hne : dps ≠ [])
    (hloop : leastLoop metric dps ((env.now (query env p metric w).2).1, 0) = Run.ret acc) :
    getLastPoint env p metric w =
      Run.ret ((acc.2, none), (env.now (query env p metric w).2).2) := by
  unfold getLastPoint
  generalize query env p metric w = q at hq hloop
  obtain ⟨r, w2⟩ := q
  simp only at hq hloop
  subst hq
  simp [hne, hloop]

theorem getLastPoint_of_loop_panic {σ V C : Type} [Zero V] (env : Env σ V C)
    (p : AwsDxCon C) (metric : metrics) (w : σ) (dps : List (Datapoint V))
    (hq : (query env p metric w).1 = Except.ok dps) (hne : dps ≠ [])
    (hloop : leastLoop metric dps ((env.now (query env p metric w).2).1, 0) = Run.panic) :
    getLastPoint env p metric w = Run.panic := by
  unfold getLastPoint
  generalize query env p metric w = q at hq hloop
  obtain ⟨r, w2⟩ := q
  simp only at hq hloop
  subst hq
  simp [hne, hloop]

/-- A call of `getLastPoint` that fails returns the value zero. -/
theorem getLastPoint_of_fails {σ V C : Type} [Zero V] (env : Env σ V C) (p : AwsDxCon C)
    (metric : metrics) (w : σ) (hf : queryFails env p metric w) :
    ∃ err w', getLastPoint env p metric w = Run.ret ((0, err), w') := by
  rcases hf with ⟨err, he⟩ | he
  · exact ⟨some err, _, getLastPoint_of_error env p metric w err he⟩
  · rw [getLastPoint_of_empty env p metric w he]
    split
    · exact ⟨none, _, rfl⟩
    · exact ⟨some _, _, rfl⟩

/-- With populated answers `getLastPoint` returns. -/
theorem getLastPoint_returns {σ V C : Type} [Zero V] (env : Env σ V C) (p : AwsDxCon C)
    (metric : metrics) (w : σ) (hpop : answersPopulated env) :
    ∃ v err w', getLastPoint env p metric w = Run.ret ((v, err), w') := by
  cases hq : (query env p metric w).1 with
  | error err => exact ⟨0, some err, _, getLastPoint_of_error env p metric w err hq⟩
  | ok dps =>
    by_cases hne : dps = []
    · subst hne
      obtain ⟨err, w', h⟩ := getLastPoint_of_fails env p metric w (Or.inr hq)
      exact ⟨0, err, w', h⟩
    · have hp : ∀ dp ∈ dps, dp.populated metric.Type_ := by
        intro dp hdp
        exact hpop p.CloudWatch (buildInput p metric (env.now w).1) (env.now w).2 dps hq dp hdp
          metric.Type_ (by simp [buildInput])
      obtain ⟨acc, hacc⟩ :=
        leastLoop_returns metric dps hp ((env.now (query env p metric w).2).1, 0)
      exact ⟨acc.2, none, _, getLastPoint_of_loop env p metric w dps acc hq hne hacc⟩

/-- What a returned value of `getLastPoint` is, for a known statistic: 0 when the query
failed; on a non-empty response every datapoint has its timestamp, the error is nil and,
when some timestamp is before the second clock reading, the value is that of the first
datapoint with the least timestamp. -/
theorem getLastPoint_ret_spec {σ V C : Type} [Zero V] (env : Env σ V C) (p : AwsDxCon C)
    (metric : metrics) (w w' : σ) (v : V) (e : GoError)
    (hs : metric.Type_ ∈ knownStatistics)
    (hg : getLastPoint env p metric w = Run.ret ((v, e), w')) :
    (queryFails env p metric w → v = 0) ∧
    (∀ dps, (query env p metric w).1 = Except.ok dps → dps ≠ [] →
      (∀ dp ∈ dps, ∃ t, dp.Timestamp = some t) ∧ e = none ∧
      ((∃ dp ∈ dps, ∃ t, dp.Timestamp = some t ∧ t < (env.now (query env p metric w).2).1) →
        firstMinimumValue metric.Type_ dps v)) := by
  refine ⟨fun hf => ?_, fun dps hq hne => ?_⟩
  · obtain ⟨e0, w0, h0⟩ := getLastPoint_of_fails env p metric w hf
    rw [h0] at hg
    simp only [Run.ret.injEq, Prod.mk.injEq] at hg
    exact hg.1.1.symm
  · cases hloop : leastLoop metric dps ((env.now (query env p metric w).2).1, 0) with
    | panic =>
      rw [getLastPoint_of_loop_panic env p metric w dps hq hne hloop] at hg
      cases hg
    | ret acc =>
      rw [getLastPoint_of_loop env p metric w dps acc hq hne hloop] at hg
      simp only [Run.ret.injEq, Prod.mk.injEq] at hg
      obtain ⟨⟨hv, he⟩, _⟩ := hg
      obtain ⟨hts, hcase⟩ := leastLoop_ret_spec metric hs dps _ _ acc hloop
      refine ⟨hts, he.symm, fun hb => ?_⟩
      rcases hcase with ⟨hall, _⟩ | ⟨pre, d, post, hsplit, htd, hvd, _, hpre, hpost⟩
      · obtain ⟨dp, hdp, t, ht, hlt⟩ := hb
        exact absurd hlt (hall dp hdp t ht)
      · rw [← hv]
        exact ⟨pre, d, post, acc.1, hsplit, htd, hvd, hpre, hpost⟩

theorem occursIn_noDatapointsError {C : Type} (p : AwsDxCon C) (metric : metrics) :
    occursIn metric.Name (noDatapointsError p metric) ∧
      occursIn p.DxConId (noDatapointsError p metric) := by
  refine ⟨⟨"fetch no datapoints (", "): " ++ p.DxConId, ?_⟩,
    ⟨"fetch no datapoints (" ++ metric.Name ++ "): ", "", ?_⟩⟩
  · simp [noDatapointsError, String.append_assoc]
  · simp [noDatapointsError]

/-! ## Lemmas on maps and on the loop of `FetchMetrics` -/

theorem GoMap.keys_set {T : Type} (m : GoMap T) (k : String) (v : T) :
    (m.set k v).keys = if k ∈ m.keys then m.keys else m.keys ++ [k] := by
  induction m with
  | nil => simp [GoMap.set, GoMap.keys]
  | cons kv rest ih =>
    obtain ⟨k', v'⟩ := kv
    by_cases h : k' = k
    · subst h
      simp [GoMap.set, GoMap.keys]
    · have h' : ¬ k = k' := fun e => h e.symm
      simp only [GoMap.keys] at ih
      simp only [GoMap.set, GoMap.keys, h, h', if_false, List.map_cons, List.mem_cons,
        false_or, ih]
      split <;> simp

theorem GoMap.get?_set_self {T : Type} (m : GoMap T) (k : String) (v : T) :
    (m.set k v).get? k = some v := by
  induction m with
  | nil => simp [GoMap.set, GoMap.get?]
  | cons kv rest ih =>
    obtain ⟨k', v'⟩ := kv
    by_cases h : k' = k
    · simp [GoMap.set, GoMap.get?, h]
    · simp [GoMap.set, GoMap.get?, h, ih]

theorem GoMap.get?_set_other {T : Type} (m : GoMap T) (k k' : String) (v : T) (hk : k' ≠ k) :
    (m.set k v).get? k' = m.get? k' := by
  induction m with
  | nil => simp [GoMap.set, GoMap.get?, hk.symm]
  | cons kv rest ih =>
    obtain ⟨k1, v1⟩ := kv
    by_cases h : k1 = k
    · subst h
      simp [GoMap.set, GoMap.get?, hk.symm]
    · by_cases h2 : k1 = k'
      · subst h2
        simp [GoMap.set, GoMap.get?, h]
      · simp [GoMap.set, GoMap.get?, h, h2, ih]

theorem fetchLoop_cons_selected {σ V C : Type} [Zero V] (env : Env σ V C) (p : AwsDxCon C)
    (met : metrics) (rest : List metrics) (stat : GoMap V) (w w1 : σ) (v : V) (err : GoError)
    (hsel : selected p met = true) (hg : getLastPoint env p met w = Run.ret ((v, err), w1)) :
    fetchLoop env p (met :: rest) stat w =
      fetchLoop env p rest (stat.set met.Name v) (logFetchError env met err w1) := by
  simp [fetchLoop, hsel, hg]

theorem fetchLoop_cons_skipped {σ V C : Type} [Zero V] (env : Env σ V C) (p : AwsDxCon C)
    (met : metrics) (rest : List metrics) (stat : GoMap V) (w : σ)
    (hsel : ¬ selected p met = true) :
    fetchLoop env p (met :: rest) stat w = fetchLoop env p rest stat w := by
  simp [fetchLoop, hsel]

theorem fetchLoop_cons_panic {σ V C : Type} [Zero V] (env : Env σ V C) (p : AwsDxCon C)
    (met : metrics) (rest : List metrics) (stat : GoMap V) (w : σ)
    (hsel : selected p met = true) (hg : getLastPoint env p met w = Run.panic) :
    fetchLoop env p (met :: rest) stat w = Run.panic := by
  simp [fetchLoop, hsel, hg]

/-- With populated answers the loop of `FetchMetrics` runs to its end. -/
theorem fetchLoop_returns {σ V C : Type} [Zero V] (env : Env σ V C) (p : AwsDxCon C)
    (hpop : answersPopulated env) (ms : List metrics) (stat : GoMap V) (w : σ) :
    ∃ stat' w', fetchLoop env p ms stat w = Run.ret (stat', w') := by
  induction ms generalizing stat w with
  | nil => exact ⟨stat, w, rfl⟩
  | cons met rest ih =>
    by_cases hsel : selected p met = true
    · obtain ⟨v, err, w1, hg⟩ := getLastPoint_returns env p met w hpop
      rw [fetchLoop_cons_selected env p met rest stat w w1 v err hsel hg]
      exact ih _ _
    · rw [fetchLoop_cons_skipped env p met rest stat w hsel]
      exact ih _ _

/-- The keys after the loop are the keys before it, extended by the selected names. -/
theorem fetchLoop_keys {σ V C : Type} [Zero V] (env : Env σ V C) (p : AwsDxCon C)
    (ms : List metrics) (stat stat' : GoMap V) (w w' : σ)
    (h : fetchLoop env p ms stat w = Run.ret (stat', w')) :
    stat'.keys =
      addKeys stat.keys ((ms.filter fun met => selected p met).map fun met => met.Name) := by
  induction ms generalizing stat w with
  | nil =>
    simp only [fetchLoop, Run.ret.injEq, Prod.mk.injEq] at h
    simp [addKeys, h.1]
  | cons met rest ih =>
    by_cases hsel : selected p met = true
    · cases hg : getLastPoint env p met w with
      | panic =>
        rw [fetchLoop_cons_panic env p met rest stat w hsel hg] at h
        cases h
      | ret r =>
        obtain ⟨⟨v, err⟩, w1⟩ := r
        rw [fetchLoop_cons_selected env p met rest stat w w1 v err hsel hg] at h
        rw [ih _ _ h, GoMap.keys_set]
        simp [addKeys, List.filter_cons, hsel]
    · rw [fetchLoop_cons_skipped env p met rest stat w hsel] at h
      rw [ih _ _ h]
      simp [List.filter_cons, hsel]

/-- The loop leaves alone every key that is not the name of one of its entries. -/
theorem fetchLoop_get?_other {σ V C : Type} [Zero V] (env : Env σ V C) (p : AwsDxCon C)
    (ms : List metrics) (stat stat' : GoMap V) (w w' : σ) (k : String)
    (h : fetchLoop env p ms stat w = Run.ret (stat', w'))
    (hk : ∀ met ∈ ms, met.Name ≠ k) : stat'.get? k = stat.get? k := by
  induction ms generalizing stat w with
  | nil =>
    simp only [fetchLoop, Run.ret.injEq, Prod.mk.injEq] at h
    rw [h.1]
  | cons met rest ih =>
    have hrest : ∀ m ∈ rest, m.Name ≠ k := fun m hm => hk m (List.mem_cons_of_mem _ hm)
    by_cases hsel : selected p met = true
    · cases hg : getLastPoint env p met w with
      | panic =>
        rw [fetchLoop_cons_panic env p met rest stat w hsel hg] at h
        cases h
      | ret r =>
        obtain ⟨⟨v, err⟩, w1⟩ := r
        rw [fetchLoop_cons_selected env p met rest stat w w1 v err hsel hg] at h
        rw [ih _ _ h hrest]
        exact GoMap.get?_set_other stat met.Name k v (hk met (List.mem_cons_self _ _)).symm
    · rw [fetchLoop_cons_skipped env p met rest stat w hsel] at h
      exact ih _ _ h hrest

/-- Running the loop over a concatenation is running it over the parts in turn. -/
theorem fetchLoop_append {σ V C : Type} [Zero V] (env : Env σ V C) (p : AwsDxCon C)
    (xs ys : List metrics) (stat : GoMap V) (w : σ) :
    fetchLoop env p (xs ++ ys) stat w =
      match fetchLoop env p xs stat w with
      | Run.ret (s, w1) => fetchLoop env p ys s w1
      | Run.panic => Run.panic := by
  induction xs generalizing stat w with
  | nil => simp [fetchLoop]
  | cons met rest ih =>
    by_cases hsel : selected p met = true
    · cases hg : getLastPoint env p met w with
      | panic =>
        simp [fetchLoop, hsel, hg]
      | ret r =>
        obtain ⟨⟨v, err⟩, w1⟩ := r
        simp only [List.cons_append]
        rw [fetchLoop_cons_selected env p met _ stat w w1 v err hsel hg,
          fetchLoop_cons_selected env p met _ stat w w1 v err hsel hg]
        exact ih _ _
    · simp only [List.cons_append]
      rw [fetchLoop_cons_skipped env p met _ stat w hsel,
        fetchLoop_cons_skipped env p met _ stat w hsel]
      exact ih _ _

/-! ## Lemmas on the test doubles -/

theorem point_populated (t v : Int) (s : Statistic) : (point t v).populated s := by
  refine ⟨rfl, fun hs => ?_⟩
  unfold requestedValue
  split_ifs with h1 h2 h3 h4 <;> first | rfl | skip
  simp [knownStatistics, h1, h2, h3, h4] at hs

theorem scriptedEnv_answersPopulated (clock : Nat → Time)
    (answer : String → Except String (List (Datapoint Int)))
    (h : ∀ name dps, answer name = Except.ok dps → ∀ dp ∈ dps, ∀ s, dp.populated s) :
    answersPopulated (scriptedEnv clock answer) := by
  intro c input w dps hq dp hdp s _
  exact h input.MetricName dps hq dp hdp s

theorem flakyEnv_answersPopulated : answersPopulated flakyEnv := by
  apply scriptedEnv_answersPopulated
  intro name dps hq dp hdp s
  split at hq
  · cases hq
  · cases hq
    rw [List.mem_singleton] at hdp
    subst hdp
    exact point_populated _ _ _

/-! ## The metric fetcher -/

theorem selected_names {C : Type} (p : AwsDxCon C) :
    ((catalog.filter fun met => selected p met).map fun met => met.Name) =
      if p.FullSpecSupport = true then catalogNames else ["ConnectionState"] := by
  cases hF : p.FullSpecSupport <;> simp [catalog, catalogNames, selected, hF]

theorem FetchMetrics_of_loop {σ V C : Type} [Zero V] (env : Env σ V C) (p : AwsDxCon C)
    (w w' : σ) (stat : GoMap V) (err : GoError)
    (h : FetchMetrics env p w = Run.ret ((stat, err), w')) :
    fetchLoop env p catalog [] w = Run.ret (stat, w') ∧ err = none := by
  unfold FetchMetrics at h
  cases hl : fetchLoop env p catalog [] w with
  | panic => rw [hl] at h; cases h
  | ret r =>
    obtain ⟨s1, w1⟩ := r
    rw [hl] at h
    simp only [Run.ret.injEq, Prod.mk.injEq] at h
    obtain ⟨⟨h1, h2⟩, h3⟩ := h
    subst h1 h3
    exact ⟨rfl, h2.symm⟩

theorem FetchMetrics_returns {σ V C : Type} [Zero V] (env : Env σ V C) (p : AwsDxCon C)
    (w : σ) (hpop : answersPopulated env) :
    ∃ stat w', FetchMetrics env p w = Run.ret ((stat, none), w') := by
  obtain ⟨stat, w', h⟩ := fetchLoop_returns env p hpop catalog [] w
  exact ⟨stat, w', by simp [FetchMetrics, h]⟩

/-- C1. Whatever the monitoring API does, a mapping returned by `FetchMetrics` has a key set
fixed by `FullSpecSupport` alone: the single key `ConnectionState` when the flag is false,
the nine catalog names when it is true.  The call does return such a mapping whenever the
datapoints of the API carry their timestamp and requested statistic. -/
theorem FetchMetrics_keys {σ V C : Type} [Zero V] (env : Env σ V C) (p : AwsDxCon C) (w : σ) :
    (∀ (stat : GoMap V) (err : GoError) (w' : σ),
        FetchMetrics env p w = Run.ret ((stat, err), w') →
        stat.keys =
          if p.FullSpecSupport = true then
            ["ConnectionState", "ConnectionEncryptionState", "ConnectionBpsEgress",
              "ConnectionBpsIngress", "ConnectionPpsEgress", "ConnectionPpsIngress",
              "ConnectionLightLevelTx", "ConnectionLightLevelRx", "ConnectionErrorCount"]
          else ["ConnectionState"]) ∧
    (answersPopulated env →
        ∃ (stat : GoMap V) (w' : σ), FetchMetrics env p w = Run.ret ((stat, none), w')) := by
  refine ⟨?_, FetchMetrics_returns env p w⟩
  intro stat err w' h
  have hk := fetchLoop_keys env p catalog [] stat w w' (FetchMetrics_of_loop env p w w' stat err h).1
  rw [hk, selected_names]
  cases hF : p.FullSpecSupport <;> simp [GoMap.keys, addKeys, catalogNames, catalog]

/-- C1, on the double whose connection state query fails: the nine keys all the same. -/
theorem FetchMetrics_keys_witness :
    ∃ (stat : GoMap Int) (w' : Nat),
      FetchMetrics flakyEnv (plugin true "" "dxcon-1") 0 = Run.ret ((stat, none), w') ∧
      stat.keys =
        ["ConnectionState", "ConnectionEncryptionState", "ConnectionBpsEgress",
          "ConnectionBpsIngress", "ConnectionPpsEgress", "ConnectionPpsIngress",
          "ConnectionLightLevelTx", "ConnectionLightLevelRx", "ConnectionErrorCount"] := by
  obtain ⟨stat, w', h⟩ :=
    (FetchMetrics_keys flakyEnv (plugin true "" "dxcon-1") 0).2 flakyEnv_answersPopulated
  exact ⟨stat, w', h,
    (FetchMetrics_keys flakyEnv (plugin true "" "dxcon-1") 0).1 stat none w' h⟩

theorem catalog_names_nodup : (catalog.map fun met => met.Name).Nodup := by
  decide

theorem catalog_known : ∀ met ∈ catalog, met.Type_ ∈ knownStatistics := by
  decide

/-- C3. `FetchMetrics` never returns a non-nil error, and in every mapping it returns each
selected catalog entry is present with its own value: the value is 0 when the query of the
entry failed (an API error, or no datapoints), and on a non-empty response with a timestamp
before the second clock reading it is the value of the first datapoint with the least
timestamp, whatever the queries of the other entries did.  The query of an entry is the one
made from the world that the loop over the earlier entries left.  With datapoints that carry
their timestamp and requested statistic the pass does return. -/
theorem FetchMetrics_complete {σ V C : Type} [Zero V] (env : Env σ V C) (p : AwsDxCon C)
    (w : σ) :
    (∀ (stat : GoMap V) (err : GoError) (w' : σ),
        FetchMetrics env p w = Run.ret ((stat, err), w') →
        err = none ∧
        ∀ (pre : List metrics) (met : metrics) (post : List metrics),
          catalog = pre ++ met :: post → selected p met = true →
          ∃ (statPre : GoMap V) (wm : σ) (v : V) (e : GoError) (wm' : σ),
            fetchLoop env p pre [] w = Run.ret (statPre, wm) ∧
            getLastPoint env p met wm = Run.ret ((v, e), wm') ∧
            stat.get? met.Name = some v ∧
            (queryFails env p met wm → v = 0) ∧
            (∀ dps, (query env p met wm).1 = Except.ok dps → dps ≠ [] →
              (∃ dp ∈ dps, ∃ t, dp.Timestamp = some t ∧
                t < (env.now (query env p met wm).2).1) →
              firstMinimumValue met.Type_ dps v)) ∧
    (answersPopulated env →
      ∃ (stat : GoMap V) (w' : σ), FetchMetrics env p w = Run.ret ((stat, none), w')) := by
  refine ⟨fun stat err w' h => ?_, FetchMetrics_returns env p w⟩
  obtain ⟨hl, herr⟩ := FetchMetrics_of_loop env p w w' stat err h
  refine ⟨herr, fun pre met post hsplit hsel => ?_⟩
  have hmem : met ∈ catalog := by rw [hsplit]; simp
  have hs := catalog_known met hmem
  rw [hsplit, fetchLoop_append] at hl
  cases hpre : fetchLoop env p pre [] w with
  | panic => rw [hpre] at hl; cases hl
  | ret r =>
    obtain ⟨statPre, wm⟩ := r
    rw [hpre] at hl
    simp only at hl
    cases hg : getLastPoint env p met wm with
    | panic =>
      rw [fetchLoop_cons_panic env p met post statPre wm hsel hg] at hl
      cases hl
    | ret r1 =>
      obtain ⟨⟨v, e⟩, wm'⟩ := r1
      rw [fetchLoop_cons_selected env p met post statPre wm wm' v e hsel hg] at hl
      have hnd := catalog_names_nodup
      rw [hsplit, List.map_append, List.map_cons] at hnd
      have hnotin : ∀ m ∈ post, m.Name ≠ met.Name := by
        intro m hm heq
        have h2 := (List.nodup_cons.mp (List.nodup_append.mp hnd).2.1).1
        exact h2 (List.mem_map.mpr ⟨m, hm, heq⟩)
      have hget : stat.get? met.Name = some v := by
        rw [fetchLoop_get?_other env p post _ stat _ w' met.Name hl hnotin]
        exact GoMap.get?_set_self statPre met.Name v
      obtain ⟨hfail, hval⟩ := getLastPoint_ret_spec env p met wm wm' v e hs hg
      exact ⟨statPre, wm, v, e, wm', rfl, hg, hget, hfail,
        fun dps hq hne hb => (hval dps hq hne).2.2 hb⟩

theorem mixedEnv_answersPopulated : answersPopulated mixedEnv := by
  apply scriptedEnv_answersPopulated
  intro name dps hq dp hdp s
  split at hq
  · cases hq
  · split at hq
    · cases hq
      exact absurd hdp (List.not_mem_nil _)
    · split at hq
      · cases hq
        simp only [List.mem_cons, List.mem_singleton, List.not_mem_nil, or_false] at hdp
        rcases hdp with rfl | rfl | rfl <;> exact point_populated _ _ _
      · cases hq
        rw [List.mem_singleton] at hdp
        subst hdp
        exact point_populated _ _ _

/-- C3, on a double with one answer of each kind: the pass returns the whole mapping with
a nil error; the failed connection state and the empty encryption state read 0, the
outbound bitrate reads the 3 of its earliest datapoint, the other entries their 7. -/
theorem FetchMetrics_complete_witness :
    FetchMetrics mixedEnv (plugin true "" "dxcon-1") 0 =
      Run.ret (([("ConnectionState", 0), ("ConnectionEncryptionState", 0),
          ("ConnectionBpsEgress", 3), ("ConnectionBpsIngress", 7),
          ("ConnectionPpsEgress", 7), ("ConnectionPpsIngress", 7),
          ("ConnectionLightLevelTx", 7), ("ConnectionLightLevelRx", 7),
          ("ConnectionErrorCount", 7)], none), 16) ∧
    (∃ (statPre : GoMap Int) (wm : Nat) (v : Int) (e : GoError) (wm' : Nat),
      fetchLoop mixedEnv (plugin true "" "dxcon-1") (catalog.take 2) [] 0 =
        Run.ret (statPre, wm) ∧
      getLastPoint mixedEnv (plugin true "" "dxcon-1") bpsEgress wm = Run.ret ((v, e), wm') ∧
      GoMap.get? [("ConnectionState", 0), ("ConnectionEncryptionState", 0),
          ("ConnectionBpsEgress", 3), ("ConnectionBpsIngress", 7),
          ("ConnectionPpsEgress", 7), ("ConnectionPpsIngress", 7),
          ("ConnectionLightLevelTx", 7), ("ConnectionLightLevelRx", 7),
          ("ConnectionErrorCount", 7)] bpsEgress.Name = some v ∧
      (queryFails mixedEnv (plugin true "" "dxcon-1") bpsEgress wm → v = 0) ∧
      (∀ dps, (query mixedEnv (plugin true "" "dxcon-1") bpsEgress wm).1 = Except.ok dps →
        dps ≠ [] →
        (∃ dp ∈ dps, ∃ t, dp.Timestamp = some t ∧
          t < (mixedEnv.now (query mixedEnv (plugin true "" "dxcon-1") bpsEgress wm).2).1) →
        firstMinimumValue bpsEgress.Type_ dps v)) ∧
    (∃ (stat : GoMap Int) (w' : Nat),
      FetchMetrics mixedEnv (plugin true "" "dxcon-1") 0 = Run.ret ((stat, none), w')) :=
  ⟨rfl,
    ((FetchMetrics_complete mixedEnv (plugin true "" "dxcon-1") 0).1 _ none 16 rfl).2
      (catalog.take 2) bpsEgress (catalog.drop 3) rfl rfl,
    (FetchMetrics_complete mixedEnv (plugin true "" "dxcon-1") 0).2 mixedEnv_answersPopulated⟩

/-- The shared core of the statements on the selected datapoint: with a known statistic,
populated datapoints and a timestamp before the second clock reading, `getLastPoint`
returns the value of the first datapoint that has the least timestamp. -/
theorem getLastPoint_selects {σ V C : Type} [Zero V] (env : Env σ V C) (p : AwsDxCon C)
    (metric : metrics) (w : σ) (dps : List (Datapoint V))
    (hs : metric.Type_ ∈ knownStatistics)
    (hq : (query env p metric w).1 = Except.ok dps)
    (hp : ∀ dp ∈ dps, dp.populated metric.Type_)
    (hb : ∃ dp ∈ dps, ∃ t, dp.Timestamp = some t ∧ t < (env.now (query env p metric w).2).1) :
    ∃ (pre : List (Datapoint V)) (d : Datapoint V) (post : List (Datapoint V))
      (t : Time) (v : V),
      dps = pre ++ d :: post ∧ d.Timestamp = some t ∧
      requestedValue metric.Type_ d = some v ∧
      (∀ x ∈ pre, ∀ tx, x.Timestamp = some tx → t < tx) ∧
      (∀ x ∈ post, ∀ tx, x.Timestamp = some tx → t ≤ tx) ∧
      getLastPoint env p metric w =
        Run.ret ((v, none), (env.now (query env p metric w).2).2) := by
  have hne : dps ≠ [] := by
    obtain ⟨dp, hdp, _⟩ := hb
    exact List.ne_nil_of_mem hdp
  rcases leastLoop_spec metric hs dps hp (env.now (query env p metric w).2).1 0 with
    ⟨hall, _⟩ | ⟨pre, d, post, t, v, hsplit, htd, hvd, _, hpre, hpost, hres⟩
  · obtain ⟨dp, hdp, t, ht, hlt⟩ := hb
    exact absurd hlt (hall dp hdp t ht)
  · exact ⟨pre, d, post, t, v, hsplit, htd, hvd, hpre, hpost,
      getLastPoint_of_loop env p metric w dps (t, v) hq hne hres⟩

/-- C2, evaluated where the code misses the earliest datapoint.  First double: the API
answers the single datapoint `t = 200, v = 5` while both clock readings are 100.  Second
double: the single datapoint `t = 940, v = 5` lies inside the requested window of the
first clock reading 1000, and the wall clock has stepped back to 900 by the second reading.
Both times `getLastPoint` returns `(0, nil)` on a non-empty response, not the value 5 of
the earliest (and only) datapoint. -/
theorem getLastPoint_misses_earliest :
    ((query aheadEnv (plugin true "" "dxcon-1") bpsEgress 0).1 = Except.ok [point 200 5] ∧
      getLastPoint aheadEnv (plugin true "" "dxcon-1") bpsEgress 0 = Run.ret ((0, none), 2) ∧
      ¬ returnsEarliest aheadEnv (plugin true "" "dxcon-1") bpsEgress 0 [point 200 5]) ∧
    ((query stepBackEnv (plugin true "" "dxcon-1") bpsEgress 0).1 = Except.ok [point 940 5] ∧
      (buildInput (plugin true "" "dxcon-1") bpsEgress 1000).StartTime ≤ 940 ∧
      940 < (buildInput (plugin true "" "dxcon-1") bpsEgress 1000).EndTime ∧
      getLastPoint stepBackEnv (plugin true "" "dxcon-1") bpsEgress 0 =
        Run.ret ((0, none), 2) ∧
      ¬ returnsEarliest stepBackEnv (plugin true "" "dxcon-1") bpsEgress 0 [point 940 5]) := by
  refine ⟨⟨rfl, rfl, ?_⟩, ⟨rfl, by decide, by decide, rfl, ?_⟩⟩
  · rintro ⟨d, hd, t, v, w', _, _, hv, hg⟩
    rw [List.mem_singleton] at hd
    subst hd
    have h0 : getLastPoint aheadEnv (plugin true "" "dxcon-1") bpsEgress 0 =
        Run.ret ((0, none), 2) := rfl
    rw [h0] at hg
    have hv5 : requestedValue bpsEgress.Type_ (point 200 5) = some 5 := rfl
    rw [hv5] at hv
    simp only [Run.ret.injEq, Prod.mk.injEq, Option.some.injEq] at hg hv
    omega
  · rintro ⟨d, hd, t, v, w', _, _, hv, hg⟩
    rw [List.mem_singleton] at hd
    subst hd
    have h0 : getLastPoint stepBackEnv (plugin true "" "dxcon-1") bpsEgress 0 =
        Run.ret ((0, none), 2) := rfl
    rw [h0] at hg
    have hv5 : requestedValue bpsEgress.Type_ (point 940 5) = some 5 := rfl
    rw [hv5] at hv
    simp only [Run.ret.injEq, Prod.mk.injEq, Option.some.injEq] at hg hv
    omega

/-- Where the code does reach the earliest datapoint: for a metric whose statistic is
Average, Maximum, Minimum or Sum and a response whose datapoints carry their timestamp and
that statistic, at least one of them with a timestamp strictly before the clock reading
taken after the response, `getLastPoint` returns without error the value of a datapoint
with the earliest timestamp. -/
theorem getLastPoint_returns_earliest {σ V C : Type} [Zero V] (env : Env σ V C)
    (p : AwsDxCon C) (metric : metrics) (w : σ) (dps : List (Datapoint V))
    (hs : metric.Type_ ∈ knownStatistics)
    (hq : (query env p metric w).1 = Except.ok dps)
    (hp : ∀ dp ∈ dps, dp.populated metric.Type_)
    (hb : ∃ dp ∈ dps, ∃ t, dp.Timestamp = some t ∧ t < (env.now (query env p metric w).2).1) :
    returnsEarliest env p metric w dps := by
  obtain ⟨pre, d, post, t, v, hsplit, htd, hvd, hpre, hpost, hg⟩ :=
    getLastPoint_selects env p metric w dps hs hq hp hb
  refine ⟨d, by simp [hsplit], t, v, _, htd, ?_, hvd, hg⟩
  intro x hx tx htx
  rw [hsplit, List.mem_append, List.mem_cons] at hx
  rcases hx with hx | rfl | hx
  · exact le_of_lt (hpre x hx tx htx)
  · rw [htd] at htx; cases htx; exact le_refl _
  · exact hpost x hx tx htx

/-- The worked example of the specification: datapoints at `T-60`, `T-120`, `T` with values
5, 3, 9 under Average; the value returned is 3. -/
theorem getLastPoint_returns_earliest_example :
    returnsEarliest exampleEnv (plugin true "" "dxcon-1") bpsEgress 0
        [point 940 5, point 880 3, point 1000 9] ∧
    getLastPoint exampleEnv (plugin true "" "dxcon-1") bpsEgress 0 = Run.ret ((3, none), 2) :=
  ⟨getLastPoint_returns_earliest exampleEnv (plugin true "" "dxcon-1") bpsEgress 0
      [point 940 5, point 880 3, point 1000 9] (by decide) rfl
      (fun dp hdp => by
        simp only [List.mem_cons, List.mem_singleton, List.not_mem_nil, or_false] at hdp
        rcases hdp with rfl | rfl | rfl <;> exact point_populated _ _ _)
      ⟨point 940 5, by simp, 940, rfl, by decide⟩,
    rfl⟩

/-- C4. When the API call succeeds with no datapoints, `getLastPoint` returns the value 0;
the error is nil exactly when the metric is marked `FullSpecSupport` and the run-level
`FullSpecSupport` is true; otherwise the error is non-nil and its message contains the
metric name and the connection id. -/
theorem getLastPoint_no_datapoints {σ V C : Type} [Zero V] (env : Env σ V C) (p : AwsDxCon C)
    (metric : metrics) (w : σ) (hq : (query env p metric w).1 = Except.ok []) :
    ∃ (err : GoError) (w' : σ),
      getLastPoint env p metric w = Run.ret ((0, err), w') ∧
      (err = none ↔ (metric.FullSpecSupport = true ∧ p.FullSpecSupport = true)) ∧
      (¬ (metric.FullSpecSupport = true ∧ p.FullSpecSupport = true) →
        ∃ msg, err = some msg ∧ occursIn metric.Name msg ∧ occursIn p.DxConId msg) := by
  rw [getLastPoint_of_empty env p metric w hq]
  by_cases hc : metric.FullSpecSupport = true ∧ p.FullSpecSupport = true
  · rw [if_pos hc]
    exact ⟨none, _, rfl, ⟨fun _ => hc, fun _ => rfl⟩, fun hn => absurd hc hn⟩
  · rw [if_neg hc]
    refine ⟨some (noDatapointsError p metric), _, rfl, ⟨fun h => ?_, fun h => absurd h hc⟩,
      fun _ => ⟨_, rfl, occursIn_noDatapointsError p metric⟩⟩
    cases h

/-- C4, on a required metric without datapoints: value 0 and the error that names the
metric and the connection. -/
theorem getLastPoint_no_datapoints_witness :
    (query silentEnv (plugin true "" "dxcon-1") connectionState 0).1 = Except.ok [] ∧
    ∃ (err : GoError) (w' : Nat),
      getLastPoint silentEnv (plugin true "" "dxcon-1") connectionState 0 =
        Run.ret ((0, err), w') ∧
      (err = none ↔
        (connectionState.FullSpecSupport = true ∧
          (plugin true "" "dxcon-1").FullSpecSupport = true)) ∧
      (¬ (connectionState.FullSpecSupport = true ∧
          (plugin true "" "dxcon-1").FullSpecSupport = true) →
        ∃ msg, err = some msg ∧ occursIn connectionState.Name msg ∧
          occursIn (plugin true "" "dxcon-1").DxConId msg) :=
  ⟨rfl, getLastPoint_no_datapoints silentEnv (plugin true "" "dxcon-1") connectionState 0 rfl⟩

/-- C10. For a metric whose statistic is Average, Maximum, Minimum or Sum and a response
of datapoints that carry their timestamp and that statistic, at least one timestamp being
strictly before the clock reading taken after the response, `getLastPoint` returns with nil
error the value of the first datapoint, in list order, whose timestamp is the minimum of
the list.  A datapoint whose timestamp is not strictly before the running minimum leaves
the running pair as it is. -/
theorem getLastPoint_first_minimum {σ V C : Type} [Zero V] (env : Env σ V C) (p : AwsDxCon C)
    (metric : metrics) (w : σ) (dps : List (Datapoint V))
    (hs : metric.Type_ ∈ knownStatistics)
    (hq : (query env p metric w).1 = Except.ok dps)
    (hp : ∀ dp ∈ dps, dp.populated metric.Type_)
    (hb : ∃ dp ∈ dps, ∃ t, dp.Timestamp = some t ∧ t < (env.now (query env p metric w).2).1) :
    (∃ (pre : List (Datapoint V)) (d : Datapoint V) (post : List (Datapoint V))
        (t : Time) (v : V),
        dps = pre ++ d :: post ∧ d.Timestamp = some t ∧
        requestedValue metric.Type_ d = some v ∧
        (∀ x ∈ pre, ∀ tx, x.Timestamp = some tx → t < tx) ∧
        (∀ x ∈ post, ∀ tx, x.Timestamp = some tx → t ≤ tx) ∧
        getLastPoint env p metric w =
          Run.ret ((v, none), (env.now (query env p metric w).2).2)) ∧
    (∀ (acc : Time × V) (dp : Datapoint V) (t : Time),
        dp.Timestamp = some t → ¬ t < acc.1 → leastStep metric acc dp = Run.ret acc) :=
  ⟨getLastPoint_selects env p metric w dps hs hq hp hb,
    fun acc dp t ht hnot => leastStep_keeps metric acc dp t ht hnot⟩

/-- C10, on a response whose least timestamp occurs twice: the first of the two is taken. -/
theorem getLastPoint_first_minimum_witness :
    ((∃ (pre : List (Datapoint Int)) (d : Datapoint Int) (post : List (Datapoint Int))
        (t : Time) (v : Int),
        [point 940 5, point 880 3, point 880 7, point 1000 9] = pre ++ d :: post ∧
        d.Timestamp = some t ∧ requestedValue bpsEgress.Type_ d = some v ∧
        (∀ x ∈ pre, ∀ tx, x.Timestamp = some tx → t < tx) ∧
        (∀ x ∈ post, ∀ tx, x.Timestamp = some tx → t ≤ tx) ∧
        getLastPoint tieEnv (plugin true "" "dxcon-1") bpsEgress 0 =
          Run.ret ((v, none),
            (tieEnv.now (query tieEnv (plugin true "" "dxcon-1") bpsEgress 0).2).2)) ∧
      (∀ (acc : Time × Int) (dp : Datapoint Int) (t : Time),
        dp.Timestamp = some t → ¬ t < acc.1 → leastStep bpsEgress acc dp = Run.ret acc)) ∧
    getLastPoint tieEnv (plugin true "" "dxcon-1") bpsEgress 0 = Run.ret ((3, none), 2) :=
  ⟨getLastPoint_first_minimum tieEnv (plugin true "" "dxcon-1") bpsEgress 0
      [point 940 5, point 880 3, point 880 7, point 1000 9] (by decide) rfl
      (fun dp hdp => by
        simp only [List.mem_cons, List.mem_singleton, List.not_mem_nil, or_false] at hdp
        rcases hdp with rfl | rfl | rfl | rfl <;> exact point_populated _ _ _)
      ⟨point 940 5, by simp, 940, rfl, by decide⟩,
    rfl⟩

/-! ## The credential resolver -/

theorem credentialsProviders_append_region {S : Type} (opts : List (LoadOption S))
    (r : String) :
    credentialsProviders (opts ++ [LoadOption.WithRegion r]) = credentialsProviders opts := by
  induction opts with
  | nil => rfl
  | cons o rest ih =>
    cases o with
    | WithCredentialsProvider v => simp [credentialsProviders, ih]
    | WithRegion v => simp [credentialsProviders, ih]

theorem credentialsProviders_withRegion {S C : Type} (p : AwsDxCon C)
    (opts : List (LoadOption S)) :
    credentialsProviders (withRegion p opts) = credentialsProviders opts := by
  unfold withRegion
  split
  · exact credentialsProviders_append_region opts p.Region
  · rfl

theorem prepareFinish_error {σ Cfg S C : Type} (env : ConfigEnv σ Cfg S C) (p : AwsDxCon C)
    (opts : List (LoadOption S)) (w : σ) (err : String)
    (h : (env.loadDefaultConfig (withRegion p opts) w).1 = Except.error err) :
    prepareFinish env p opts w =
      ((some err, p), (env.loadDefaultConfig (withRegion p opts) w).2) := by
  unfold prepareFinish
  generalize env.loadDefaultConfig (withRegion p opts) w = r at h
  obtain ⟨a, b⟩ := r
  simp only at h
  subst h
  rfl

theorem prepareFinish_ok {σ Cfg S C : Type} (env : ConfigEnv σ Cfg S C) (p : AwsDxCon C)
    (opts : List (LoadOption S)) (w : σ) (cfg : Cfg)
    (h : (env.loadDefaultConfig (withRegion p opts) w).1 = Except.ok cfg) :
    prepareFinish env p opts w =
      ((none, { p with CloudWatch := some (env.cloudwatchNewFromConfig cfg) }),
        (env.loadDefaultConfig (withRegion p opts) w).2) := by
  unfold prepareFinish
  generalize env.loadDefaultConfig (withRegion p opts) w = r at h
  obtain ⟨a, b⟩ := r
  simp only at h
  subst h
  rfl

theorem prepare_role_error {σ Cfg S C : Type} (env : ConfigEnv σ Cfg S C) (p : AwsDxCon C)
    (w : σ) (err : String) (hr : p.RoleArn ≠ "")
    (h : (env.loadDefaultConfig [] w).1 = Except.error err) :
    prepare env p w = ((some err, p), (env.loadDefaultConfig [] w).2) := by
  unfold prepare
  simp only [hr, ne_eq, not_false_eq_true, if_true]
  generalize env.loadDefaultConfig [] w = r at h
  obtain ⟨a, b⟩ := r
  simp only at h
  subst h
  rfl

theorem prepare_role_ok {σ Cfg S C : Type} (env : ConfigEnv σ Cfg S C) (p : AwsDxCon C)
    (w : σ) (cfg : Cfg) (hr : p.RoleArn ≠ "")
    (h : (env.loadDefaultConfig [] w).1 = Except.ok cfg) :
    prepare env p w =
      prepareFinish env p
        [LoadOption.WithCredentialsProvider
          (CredentialsProvider.assumeRole (env.stsNewFromConfig cfg) p.RoleArn)]
        (env.loadDefaultConfig [] w).2 := by
  unfold prepare
  simp only [hr, ne_eq, not_false_eq_true, if_true]
  generalize env.loadDefaultConfig [] w = r at h
  obtain ⟨a, b⟩ := r
  simp only at h
  subst h
  rfl

theorem prepare_static {σ Cfg S C : Type} (env : ConfigEnv σ Cfg S C) (p : AwsDxCon C)
    (w : σ) (hr : p.RoleArn = "") (hk : p.AccessKeyID ≠ "" ∧ p.SecretKeyID ≠ "") :
    prepare env p w =
      prepareFinish env p
        [LoadOption.WithCredentialsProvider
          (CredentialsProvider.static p.AccessKeyID p.SecretKeyID "")] w := by
  unfold prepare
  simp only [hr, ne_eq, not_true_eq_false, if_false]
  rw [if_pos hk]
  rfl

theorem prepare_ambient {σ Cfg S C : Type} (env : ConfigEnv σ Cfg S C) (p : AwsDxCon C)
    (w : σ) (hr : p.RoleArn = "") (hk : ¬ (p.AccessKeyID ≠ "" ∧ p.SecretKeyID ≠ "")) :
    prepare env p w = prepareFinish env p [] w := by
  unfold prepare
  simp only [hr, ne_eq, not_true_eq_false, if_false]
  rw [if_neg hk]

/-- The option list that the tail of `prepare` loads. -/
theorem prepareFinish_calls {σ Cfg S C : Type} (env : ConfigEnv σ Cfg S C) (p : AwsDxCon C)
    (opts : List (LoadOption S)) (w : σ) (tr : List (List (LoadOption S))) :
    (prepareFinish (recordLoads env) p opts (w, tr)).2.2 = tr ++ [withRegion p opts] := by
  cases h : (env.loadDefaultConfig (withRegion p opts) w).1 with
  | error err => rw [prepareFinish_error (recordLoads env) p opts (w, tr) err h]; rfl
  | ok cfg => rw [prepareFinish_ok (recordLoads env) p opts (w, tr) cfg h]; rfl

/-- Recording the loads changes neither the outcome of the tail of `prepare` nor the world
it leaves. -/
theorem prepareFinish_recordLoads {σ Cfg S C : Type} (env : ConfigEnv σ Cfg S C)
    (p : AwsDxCon C) (opts : List (LoadOption S)) (w : σ) (tr : List (List (LoadOption S))) :
    (prepareFinish (recordLoads env) p opts (w, tr)).1 = (prepareFinish env p opts w).1 ∧
      (prepareFinish (recordLoads env) p opts (w, tr)).2.1 = (prepareFinish env p opts w).2 := by
  cases h : (env.loadDefaultConfig (withRegion p opts) w).1 with
  | error err =>
    rw [prepareFinish_error (recordLoads env) p opts (w, tr) err h,
      prepareFinish_error env p opts w err h]
    exact ⟨rfl, rfl⟩
  | ok cfg =>
    rw [prepareFinish_ok (recordLoads env) p opts (w, tr) cfg h,
      prepareFinish_ok env p opts w cfg h]
    exact ⟨rfl, rfl⟩

/-- Recording the loads changes neither the outcome of `prepare` nor the world it leaves. -/
theorem prepare_recordLoads {σ Cfg S C : Type} (env : ConfigEnv σ Cfg S C) (p : AwsDxCon C)
    (w : σ) (tr : List (List (LoadOption S))) :
    (prepare (recordLoads env) p (w, tr)).1 = (prepare env p w).1 ∧
      (prepare (recordLoads env) p (w, tr)).2.1 = (prepare env p w).2 := by
  by_cases hr : p.RoleArn = ""
  · by_cases hk : p.AccessKeyID ≠ "" ∧ p.SecretKeyID ≠ ""
    · rw [prepare_static _ p _ hr hk, prepare_static _ p _ hr hk]
      exact prepareFinish_recordLoads env p _ w tr
    · rw [prepare_ambient _ p _ hr hk, prepare_ambient _ p _ hr hk]
      exact prepareFinish_recordLoads env p _ w tr
  · cases h : (env.loadDefaultConfig [] w).1 with
    | error err =>
      rw [prepare_role_error (recordLoads env) p (w, tr) err hr h,
        prepare_role_error env p w err hr h]
      exact ⟨rfl, rfl⟩
    | ok cfg =>
      rw [prepare_role_ok (recordLoads env) p (w, tr) cfg hr h,
        prepare_role_ok env p w cfg hr h]
      exact prepareFinish_recordLoads env p _ _ _

/-- C5. The credential source follows the precedence role, static pair, ambient.  With a
non-empty `RoleArn` the first load takes no options and, when it succeeds, the final load
receives the assume-role provider bound to that ARN as its only credentials provider,
whatever the key pair; when the first load fails there is no final load and its error is
returned.  With an empty `RoleArn` there is a single load: its only credentials provider is
the static pair when `AccessKeyID` and `SecretKeyID` are both non-empty, and it has none
otherwise. -/
theorem prepare_credentials {σ Cfg S C : Type} (env : ConfigEnv σ Cfg S C) (p : AwsDxCon C)
    (w : σ) :
    (p.RoleArn ≠ "" →
      (∀ err, (env.loadDefaultConfig [] w).1 = Except.error err →
        loadCalls env p w = [[]] ∧ (prepare env p w).1.1 = some err) ∧
      (∀ cfg, (env.loadDefaultConfig [] w).1 = Except.ok cfg →
        ∃ final, loadCalls env p w = [[], final] ∧
          credentialsProviders final =
            [CredentialsProvider.assumeRole (env.stsNewFromConfig cfg) p.RoleArn])) ∧
    (p.RoleArn = "" → p.AccessKeyID ≠ "" ∧ p.SecretKeyID ≠ "" →
      ∃ final, loadCalls env p w = [final] ∧
        credentialsProviders final =
          [CredentialsProvider.static p.AccessKeyID p.SecretKeyID ""]) ∧
    (p.RoleArn = "" → ¬ (p.AccessKeyID ≠ "" ∧ p.SecretKeyID ≠ "") →
      ∃ final, loadCalls env p w = [final] ∧ credentialsProviders final = []) := by
  refine ⟨fun hr => ⟨fun err h => ?_, fun cfg h => ?_⟩, fun hr hk => ?_, fun hr hk => ?_⟩
  · refine ⟨?_, ?_⟩
    · unfold loadCalls
      rw [prepare_role_error (recordLoads env) p (w, []) err hr h]
      rfl
    · rw [prepare_role_error env p w err hr h]
  · refine ⟨withRegion p [LoadOption.WithCredentialsProvider
      (CredentialsProvider.assumeRole (env.stsNewFromConfig cfg) p.RoleArn)], ?_, ?_⟩
    · unfold loadCalls
      rw [prepare_role_ok (recordLoads env) p (w, []) cfg hr h]
      exact prepareFinish_calls env p _ _ _
    · rw [credentialsProviders_withRegion]
      rfl
  · refine ⟨withRegion p [LoadOption.WithCredentialsProvider
      (CredentialsProvider.static p.AccessKeyID p.SecretKeyID "")], ?_, ?_⟩
    · unfold loadCalls
      rw [prepare_static (recordLoads env) p (w, []) hr hk]
      exact prepareFinish_calls env p _ _ _
    · rw [credentialsProviders_withRegion]
      rfl
  · refine ⟨withRegion p [], ?_, ?_⟩
    · unfold loadCalls
      rw [prepare_ambient (recordLoads env) p (w, []) hr hk]
      exact prepareFinish_calls env p _ _ _
    · rw [credentialsProviders_withRegion]
      rfl

/-- C5, on a configuration that sets a role, a key pair and a region: the final load gets
the assume-role provider and the region, never the pair. -/
theorem prepare_credentials_witness :
    ∃ final,
      loadCalls acceptingLoader
          { plugin true "" "dxcon-1" with
            RoleArn := "arn:aws:iam::1:role/r", AccessKeyID := "AK", SecretKeyID := "SK",
            Region := "eu-west-1" } () = [[], final] ∧
        credentialsProviders final =
          [CredentialsProvider.assumeRole () "arn:aws:iam::1:role/r"] :=
  ((prepare_credentials acceptingLoader
      { plugin true "" "dxcon-1" with
        RoleArn := "arn:aws:iam::1:role/r", AccessKeyID := "AK", SecretKeyID := "SK",
        Region := "eu-west-1" } ()).1 (by decide)).2 [] rfl

/-! ## The graph schema builder -/

/-- The label of a named graph group, when the schema has the group. -/
theorem GraphDefinition_label_split {C : Type} (U : UnicodeTables) (p : AwsDxCon C)
    (kv : String × Graphs) (hkv : kv ∈ GraphDefinition U p) :
    ∃ rest, kv.2.Label = labelPrefix U p ++ " " ++ rest := by
  unfold GraphDefinition at hkv
  cases hF : p.FullSpecSupport
  · simp only [hF, Bool.false_eq_true, if_false, List.mem_singleton] at hkv
    subst hkv
    exact ⟨"connection status", by simp only [String.append_assoc]; rfl⟩
  · simp only [hF, if_true, List.mem_cons, List.mem_singleton, List.not_mem_nil,
      or_false] at hkv
    rcases hkv with rfl | rfl | rfl | rfl | rfl
    · exact ⟨"connection status", by simp only [String.append_assoc]; rfl⟩
    · exact ⟨"bps", by simp only [String.append_assoc]; rfl⟩
    · exact ⟨"pps", by simp only [String.append_assoc]; rfl⟩
    · exact ⟨"Light level", by simp only [String.append_assoc]; rfl⟩
    · exact ⟨"Error", by simp only [String.append_assoc]; rfl⟩

/-- C6. For every prefix, `GraphDefinition` returns exactly the group `State`, holding the
one metric `ConnectionState`, when `FullSpecSupport` is false, and exactly the five groups
`State`, `Bps`, `Pps`, `LightLevel`, `Error` when it is true. -/
theorem GraphDefinition_groups {C : Type} (U : UnicodeTables) (p : AwsDxCon C) :
    (GraphDefinition U p).keys =
        (if p.FullSpecSupport = true then ["State", "Bps", "Pps", "LightLevel", "Error"]
          else ["State"]) ∧
    (GraphDefinition U p).keys.Nodup ∧
    (((GraphDefinition U p).get? "State").map fun g => g.Metrics.map fun m => m.Name) =
        (if p.FullSpecSupport = true then
          some ["ConnectionState", "ConnectionEncryptionState"]
          else some ["ConnectionState"]) := by
  cases hF : p.FullSpecSupport <;>
    simp [GraphDefinition, GoMap.keys, GoMap.get?, hF]

/-- C7. For every prefix and both values of `FullSpecSupport`, the label of every group of
`GraphDefinition` is the title-cased prefix with hyphens turned into spaces, then a space,
then the rest of the label; the prefix `foo` gives the `State` label
`Foo connection status`. -/
theorem GraphDefinition_labels {C : Type} (U : UnicodeTables) (p : AwsDxCon C) :
    (∀ kv ∈ GraphDefinition U p,
      ∃ rest, kv.2.Label = ReplaceAll (Title U p.Prefix) '-' ' ' ++ " " ++ rest) ∧
    (∀ full : Bool,
      ((GraphDefinition U (plugin full "foo" "dxcon-1")).get? "State").map (fun g => g.Label) =
        some "Foo connection status") := by
  refine ⟨fun kv hkv => GraphDefinition_label_split U p kv hkv, fun full => ?_⟩
  cases full <;> rfl

/-- C7, on the prefix `my-dx`: the label of the bitrate group starts with `My Dx`. -/
theorem GraphDefinition_labels_witness :
    ∃ rest, ("My Dx bps" : String) =
      ReplaceAll (Title asciiOnly "my-dx") '-' ' ' ++ " " ++ rest :=
  (GraphDefinition_labels asciiOnly (plugin true "my-dx" "dxcon-1")).1
    ("Bps",
      { Label := "My Dx bps"
        Unit := UnitBitsPerSecond
        Metrics := [ { Name := "ConnectionBpsEgress", Label := "bps out" },
                     { Name := "ConnectionBpsIngress", Label := "bps in" } ] })
    (by decide)

/-- C8. With `FullSpecSupport` true, every metric name that a group of `GraphDefinition`
refers to is the name of a catalog entry that `FetchMetrics` queries. -/
theorem GraphDefinition_names_in_catalog {C : Type} (U : UnicodeTables) (p : AwsDxCon C)
    (hF : p.FullSpecSupport = true) (n : String)
    (hn : n ∈ graphMetricNames (GraphDefinition U p)) :
    ∃ met ∈ catalog, selected p met = true ∧ met.Name = n := by
  simp only [graphMetricNames, GraphDefinition, hF, if_true, List.flatMap_cons,
    List.flatMap_nil, List.map_cons, List.map_nil, List.cons_append, List.nil_append,
    List.append_nil, List.mem_cons, List.not_mem_nil, or_false] at hn
  rcases hn with rfl | rfl | rfl | rfl | rfl | rfl | rfl | rfl | rfl <;>
    simp [catalog, selected, hF]

/-- C8, on the name of the error counter. -/
theorem GraphDefinition_names_in_catalog_witness :
    ∃ met ∈ catalog, selected (plugin true "dx" "dxcon-1") met = true ∧
      met.Name = "ConnectionErrorCount" :=
  GraphDefinition_names_in_catalog asciiOnly (plugin true "dx" "dxcon-1") rfl
    "ConnectionErrorCount" (by decide)

/-- C9, evaluated on the empty prefix: `MetricKeyPrefix` answers the default `Dx`, yet the
`State` label that `GraphDefinition` builds is made from the empty prefix and starts with
a blank; made from the default it would read `Dx connection status`. -/
theorem GraphDefinition_empty_prefix (U : UnicodeTables) (full : Bool) :
    MetricKeyPrefix (plugin full "" "dxcon-1") = "Dx" ∧
    ((GraphDefinition U (plugin full "" "dxcon-1")).get? "State").map (fun g => g.Label) =
      some " connection status" ∧
    ((GraphDefinition U (plugin full (MetricKeyPrefix (plugin full "" "dxcon-1"))
        "dxcon-1")).get? "State").map (fun g => g.Label) = some "Dx connection status" := by
  cases full <;> exact ⟨rfl, rfl, rfl⟩

end Mpawsdxcon

